import Mathlib

/-!
Shallow embedding of the job-scraping pipeline in `index.js`:
the Filter Engine predicates (`isRecent`, `isValidDesignTitle`,
`isValidDevTitle`, `isValidLocation`, the Naukri experience check), the
Record Normalizer (the two in-page extraction functions), the Dedup
Ledger and the per-record acceptance step shared by the Naukri and
LinkedIn scrape loops, and the Persistence Sync functions
(`appendToSheet`, `fetchExistingUrls`).

Text is modelled as `List Char`; JavaScript's `String.prototype` helpers
(`toLowerCase`, `includes`, `startsWith`, `split('?')[0]`, `trim`) are
embedded as executable functions on character lists.
-/

set_option maxHeartbeats 1000000

/-- JS `s.toLowerCase()` on the ASCII strings this program handles:
lowercase each character. -/
def jsToLower (s : List Char) : List Char := s.map Char.toLower

/-- Predicate `beginsWith p s` holds when `p` is an initial segment of `s`. -/
def beginsWith : List Char → List Char → Bool
  | [], _ => true
  | _ :: _, [] => false
  | p :: ps, c :: cs => p == c && beginsWith ps cs

/-- JS `s.includes(sub)`: `sub` occurs contiguously inside `s`. -/
def jsIncludes : List Char → List Char → Bool
  | [], sub => beginsWith sub []
  | c :: cs, sub => beginsWith sub (c :: cs) || jsIncludes cs sub

/-- JS `s.startsWith(p)`. -/
def jsStartsWith (s p : String) : Bool := beginsWith p.data s.data

/-- JS `s.split('?')[0]`: everything before the first `'?'`
(`index.js` line 296, `linkEl.href.split('?')[0]`). -/
def stripQueryL : List Char → List Char
  | [] => []
  | c :: cs => if c = '?' then [] else c :: stripQueryL cs

/-- String-level wrapper for `stripQueryL`. -/
def stripQuery (s : String) : String := String.mk (stripQueryL s.data)

/-- JS whitespace characters relevant to `trim` on scraped text. -/
def isJsSpace (c : Char) : Bool := c = ' ' || c = '\t' || c = '\n' || c = '\r'

/-- JS `s.trim()`. -/
def jsTrim (s : String) : String :=
  String.mk (((s.data.dropWhile isJsSpace).reverse.dropWhile isJsSpace).reverse)

/-- JS `x || 'N/A'` on an optional string: `'N/A'` when the value is
absent or empty (both are falsy). -/
def jsOrNA (s : Option String) : String :=
  match s with
  | some t => if t = "" then "N/A" else t
  | none => "N/A"

-- --- Shared Configuration (index.js lines 21-22) ---

/-- List `LOCATIONS` (index.js line 21). -/
def LOCATIONS : List String :=
  ["Chennai", "Bengaluru", "Coimbatore", "Hyderabad", "Kerala", "Remote", "Hybrid"]

-- --- Filter Engine ---

/-- The freshness markers of `isRecent` (index.js lines 133-141), in
source order. -/
def recentMarkers : List String :=
  ["just now", "few hours", "sec", "min", "hour", "today", "1 day"]

/-- Function `isRecent(postedDateText)` (index.js lines 128-144): falsy text is
never recent; otherwise lowercase and test each substring marker in
turn. -/
def isRecent (postedDateText : String) : Bool :=
  if postedDateText = "" then false
  else
    let lower := jsToLower postedDateText.data
    if jsIncludes lower "just now".data then true
    else if jsIncludes lower "few hours".data then true
    else if jsIncludes lower "sec".data then true
    else if jsIncludes lower "min".data then true
    else if jsIncludes lower "hour".data then true
    else if jsIncludes lower "today".data then true
    else if jsIncludes lower "1 day".data then true
    else false

/-- The `validKeywords` of `isValidDesignTitle` (index.js lines 150-154). -/
def designValidKeywords : List String :=
  ["product design", "product designer",
   "ux", "ui", "user experience", "user interface", "interaction design",
   "visual design", "product manager"]

/-- The `excludedKeywords` of `isValidDesignTitle` (index.js lines 156-161). -/
def designExcludedKeywords : List String :=
  ["sheet metal", "hvac", "electrical", "civil", "architect",
   "mechanical", "sales", "marketing", "youtube", "anchor",
   "camera", "diesel", "quality", "compliance", "technician",
   "cleanroom", "mep", "panel design", "silicon", "manager"]

/-- Function `isValidDesignTitle(title)` (index.js lines 146-167). -/
def isValidDesignTitle (title : String) : Bool :=
  if title = "" then false
  else
    let t := jsToLower title.data
    let hasValid := designValidKeywords.any (fun k => jsIncludes t k.data)
    let hasExcluded := designExcludedKeywords.any (fun k => jsIncludes t k.data)
    hasValid && !hasExcluded

/-- The `validKeywords` of `isValidDevTitle` (index.js lines 173-178). -/
def devValidKeywords : List String :=
  ["frontend", "front end", "web develop", "web design", "ui develop",
   "ui ux", "ux ui", "user interface", "user experience", "interaction design",
   "responsive web design", "front end design", "sde", "engineer",
   "react", "vue", "javascript", "typescript", "html", "css", "angular"]

/-- The `excludedKeywords` of `isValidDevTitle` (index.js lines 180-183). -/
def devExcludedKeywords : List String :=
  ["sales", "marketing", "hr", "recruiter", "manager",
   "backend", "java ", "python", "php", "net", ".net"]

/-- Function `isValidDevTitle(title)` (index.js lines 169-190). -/
def isValidDevTitle (title : String) : Bool :=
  if title = "" then false
  else
    let t := jsToLower title.data
    let hasValid := devValidKeywords.any (fun k => jsIncludes t k.data)
    let hasExcluded := devExcludedKeywords.any (fun k => jsIncludes t k.data)
    hasValid && !hasExcluded

/-- The `excludedLocations` of `isValidLocation` (index.js lines 200-203). -/
def excludedLocations : List String :=
  ["san francisco", "usa", "united states", "uk", "united kingdom", "london",
   "europe", "germany", "singapore", "australia", "canada", "dubai", "uae"]

/-- Function `isValidLocation(location)` (index.js lines 192-217): deny-list
first and absolute, then require one allowed location from `LOCATIONS`. -/
def isValidLocation (location : String) : Bool :=
  if location = "" then false
  else
    let loc := jsToLower location.data
    let hasExcluded := excludedLocations.any (fun l => jsIncludes loc l.data)
    if hasExcluded then false
    else LOCATIONS.any (fun allowedLoc => jsIncludes loc (jsToLower allowedLoc.data))

-- --- Naukri experience check (index.js lines 477-487) ---

/-- Greedy run of decimal digits at the head of the text, with the rest:
the behaviour of `\d+` in the regex `/(\d+)-(\d+)/`. -/
def spanDigits : List Char → List Char × List Char
  | [] => ([], [])
  | c :: cs =>
    if c.isDigit then
      let (ds, rest) := spanDigits cs
      (c :: ds, rest)
    else ([], c :: cs)

/-- Try to match `/(\d+)-(\d+)/` anchored at the start of the text,
returning the two capture groups. A match at a position consumes the
whole digit run there (greedy), then requires `'-'` and a second digit
run. -/
def rangeMatchAt (s : List Char) : Option (List Char × List Char) :=
  match spanDigits s with
  | ([], _) => none
  | (ds1, rest) =>
    match rest with
    | '-' :: rest2 =>
      match spanDigits rest2 with
      | ([], _) => none
      | (ds2, _) => some (ds1, ds2)
    | _ => none

/-- JS `exp.match(/(\d+)-(\d+)/)`: the leftmost match of
digits-dash-digits, as its two capture groups. -/
def findRange : List Char → Option (List Char × List Char)
  | [] => none
  | c :: cs =>
    match rangeMatchAt (c :: cs) with
    | some r => some r
    | none => findRange cs

/-- JS `parseInt` on a string of decimal digits. -/
def parseDigits (ds : List Char) : Nat :=
  ds.foldl (fun n c => n * 10 + (c.toNat - 48)) 0

/-- The experience check of the Naukri accept path (index.js lines
477-487): lowercase, take the first `(\d+)-(\d+)` range and test
`min <= 3 && max >= 2`; with no range, fall back to the exact phrases
`'2 yrs'` / `'3 yrs'`. -/
def naukriValidExp (experience : String) : Bool :=
  let exp := jsToLower experience.data
  match findRange exp with
  | some (ds1, ds2) =>
    decide (parseDigits ds1 ≤ 3) && decide (parseDigits ds2 ≥ 2)
  | none => jsIncludes exp "2 yrs".data || jsIncludes exp "3 yrs".data

-- --- Record Normalizer: in-page extraction ---

/-- A raw record as pushed by either page-evaluate extraction function,
before acceptance stamping. -/
structure ScrapedJob where
  title : String
  detailUrl : String
  company : String
  location : String
  experience : String
  postedDate : String
deriving DecidableEq

/-- A stamped record: a `ScrapedJob` after the accept path sets
`scrapedAt` and `category` (index.js lines 351-352 and 490-491). -/
structure Job extends ScrapedJob where
  scrapedAt : String
  category : String
deriving DecidableEq

/-- A LinkedIn job card (index.js lines 288-320): each field is the
(optional) text or href of the corresponding queried element. -/
structure LinkedInCard where
  titleText : Option String
  linkHref : Option String
  companyText : Option String
  locationText : Option String
  timeText : Option String

/-- The per-card LinkedIn extraction (index.js lines 288-320): trim
texts, default missing fields to `'N/A'`, clean the URL with
`.split('?')[0]`, and push only when the URL is truthy and the title is
not `'N/A'`. -/
def linkedInExtract (card : LinkedInCard) : Option ScrapedJob :=
  let title := match card.titleText with | some s => jsTrim s | none => "N/A"
  let detailUrl := match card.linkHref with | some h => some (stripQuery h) | none => none
  let company := match card.companyText with | some s => jsTrim s | none => "N/A"
  let location := match card.locationText with | some s => jsTrim s | none => "N/A"
  let postedDate := match card.timeText with | some s => jsTrim s | none => "N/A"
  match detailUrl with
  | none => none
  | some url =>
    if url ≠ "" ∧ title ≠ "N/A" then
      some { title := title, detailUrl := url, company := company,
             location := location, postedDate := postedDate, experience := "N/A" }
    else none

/-- The title element of a Naukri job tuple (index.js lines 452-454):
its href and `title` attribute may each be absent. -/
structure NaukriTitleEl where
  href : Option String
  titleAttr : Option String
  innerText : String

/-- A Naukri job tuple (index.js lines 451-462). -/
structure NaukriCard where
  titleEl : Option NaukriTitleEl
  postedDateText : Option String
  companyText : Option String
  locationText : Option String
  experienceText : Option String

/-- The per-node Naukri extraction (index.js lines 451-463):
`url = titleEl.href` taken verbatim, `title` from the `title` attribute
falling back to the inner text, every other field `|| 'N/A'`; pushed
only when the URL is truthy. -/
def naukriExtract (card : NaukriCard) : Option ScrapedJob :=
  match card.titleEl with
  | none => none
  | some el =>
    match el.href with
    | none => none
    | some url =>
      if url = "" then none
      else
        let title := match el.titleAttr with
          | some a => if a = "" then el.innerText else a
          | none => el.innerText
        some { title := title, detailUrl := url,
               postedDate := jsOrNA card.postedDateText,
               company := jsOrNA card.companyText,
               location := jsOrNA card.locationText,
               experience := jsOrNA card.experienceText }

-- --- Dedup Ledger and the per-record accept step ---

/-- Which scrape loop a raw record flows through. -/
inductive Platform where
  | naukri
  | linkedin
deriving DecidableEq

/-- The pure Filter Engine gate of the Naukri accept path (index.js
lines 471-489): title, location, recency, experience, short-circuit in
source order. -/
def naukriFilters (validateTitle : String → Bool) (job : ScrapedJob) : Bool :=
  validateTitle job.title && isValidLocation job.location &&
    isRecent job.postedDate && naukriValidExp job.experience

/-- The pure Filter Engine gate of the LinkedIn accept path (index.js
lines 331-335): title and location only — the date check is
deliberately relaxed (comment at lines 342-348) and experience is never
consulted. -/
def linkedInFilters (validateTitle : String → Bool) (job : ScrapedJob) : Bool :=
  validateTitle job.title && isValidLocation job.location

/-- The platform-specific filter gate applied after the Ledger check. -/
def platformFilters : Platform → (String → Bool) → ScrapedJob → Bool
  | .naukri, v, j => naukriFilters v j
  | .linkedin, v, j => linkedInFilters v j

/-- The mutable state threaded through both scrape loops: the
`existingUrls` Set (Dedup Ledger), the per-category batch
`categoryJobs`, and the run-wide `existingJobs` list. -/
structure ScrapeState where
  existingUrls : List String
  categoryJobs : List Job
  existingJobs : List Job
deriving DecidableEq

/-- Stamping at acceptance (index.js lines 351-352 / 490-491). -/
def stamp (job : ScrapedJob) (now category : String) : Job :=
  { toScrapedJob := job, scrapedAt := now, category := category }

/-- One iteration of a scrape loop body over a raw record (index.js
lines 328-356 for LinkedIn, 467-497 for Naukri): skip if the URL is in
the Ledger, then apply the platform's filter gate, and on acceptance
stamp the record, push it to both accumulators and add its URL to the
Ledger. -/
def processJob (v : String → Bool) (now cat : String) (p : Platform)
    (st : ScrapeState) (job : ScrapedJob) : ScrapeState :=
  if st.existingUrls.contains job.detailUrl then st
  else if platformFilters p v job then
    { existingUrls := job.detailUrl :: st.existingUrls,
      categoryJobs := st.categoryJobs ++ [stamp job now cat],
      existingJobs := st.existingJobs ++ [stamp job now cat] }
  else st

/-- The scrape loops as a fold of `processJob` over the raw records in
arrival order. -/
def processJobs (v : String → Bool) (now cat : String) :
    ScrapeState → List (Platform × ScrapedJob) → ScrapeState
  | st, [] => st
  | st, (p, j) :: rest => processJobs v now cat (processJob v now cat p st j) rest

-- --- Persistence Sync ---

/-- The fixed row shape of `appendToSheet` (index.js lines 102-110):
A=Company, B=Title, C=Exp, D=Loc, E=DetailURL, F=PostedDate,
G=ScrapedAt. (In the source each field passes through `|| ''`, which is
the identity on present string fields.) -/
def sheetRow (job : Job) : List String :=
  [job.company, job.title, job.experience, job.location,
   job.detailUrl, job.postedDate, job.scrapedAt]

/-- Function `appendToSheet(jobs, spreadsheetId)` (index.js lines 86-122),
modelled as the rows it sends to the remote store: `none` when it
returns without appending (empty batch or falsy spreadsheet id). -/
def appendToSheet (jobs : List Job) (spreadsheetId : Option String) :
    Option (List (List String)) :=
  if jobs.isEmpty then none
  else match spreadsheetId with
    | none => none
    | some sid => if sid = "" then none else some (jobs.map sheetRow)

/-- Zero-based index of a spreadsheet column letter. -/
def columnIndex (c : Char) : Nat := c.toNat - 'A'.toNat

/-- The column read back by `fetchExistingUrls` (index.js line 67:
range `'E:E'`). -/
def fetchColumn : Char := 'E'

/-- Outcome of the remote-store query inside `fetchExistingUrls`:
either some thrown error (auth, quota, malformed id), or a response
whose `values` field may be absent. -/
inductive SheetsResponse where
  | err
  | ok (values : Option (List (List String)))

/-- Function `fetchExistingUrls(spreadsheetId)` (index.js lines 55-84): `[]` for
a falsy id, `[]` on any error, `[]` when `values` is absent or empty,
else flatten the rows and keep only truthy cells starting with
`'http'`. -/
def fetchExistingUrls (spreadsheetId : Option String) (resp : SheetsResponse) :
    List String :=
  match spreadsheetId with
  | none => []
  | some sid =>
    if sid = "" then []
    else match resp with
      | .err => []
      | .ok none => []
      | .ok (some rows) =>
        if rows.isEmpty then []
        else rows.flatten.filter (fun url => url ≠ "" && jsStartsWith url "http")

-- --- runScraper (index.js lines 507-579) ---

/-- The observable outcome of one `runScraper` call for one category:
the accepted batch, the rewritten local cache (`existingJobs`, written
to `jobs.json` at line 572), and the final Ledger contents. -/
structure RunResult where
  categoryJobs : List Job
  existingJobs : List Job
  finalUrls : List String

/-- The Ledger seed of `runScraper` (index.js lines 512-536): the local
cache's `detailUrl`s merged with the remote-store query results, before
any scraping. -/
def seedUrls (cacheJobs : List Job) (remoteUrls : List String) : List String :=
  cacheJobs.map (fun j => j.detailUrl) ++ remoteUrls

/-- One `runScraper` pass for a single category (index.js lines
507-579): seed the Ledger from cache and remote store, fold the scrape
loops over the raw records, and report batch, rewritten cache and final
Ledger. -/
def runScraper (v : String → Bool) (now cat : String) (cacheJobs : List Job)
    (remoteUrls : List String) (scraped : List (Platform × ScrapedJob)) : RunResult :=
  let st0 : ScrapeState :=
    { existingUrls := seedUrls cacheJobs remoteUrls,
      categoryJobs := [], existingJobs := cacheJobs }
  let st := processJobs v now cat st0 scraped
  { categoryJobs := st.categoryJobs, existingJobs := st.existingJobs,
    finalUrls := st.existingUrls }

-- --- Concrete records used in counterexamples and witnesses ---

/-- A LinkedIn job card record whose posted date is two weeks old and
whose experience text is unparseable. -/
def staleLinkedInJob : ScrapedJob :=
  { title := "Frontend Developer",
    detailUrl := "https://www.linkedin.com/jobs/view/4328487238",
    company := "Acme", location := "Chennai, Tamil Nadu, India",
    experience := "N/A", postedDate := "2 weeks ago" }

/-- A Naukri record that passes every Filter Engine predicate for the
Frontend category. -/
def goodNaukriJob : ScrapedJob :=
  { title := "Frontend Developer", detailUrl := "https://www.naukri.com/job-1",
    company := "Acme", location := "Chennai", experience := "2-4 Yrs",
    postedDate := "Just now" }

/-- A Naukri job tuple whose href carries a query string. -/
def naukriCardWithQuery : NaukriCard :=
  { titleEl := some { href := some "https://www.naukri.com/job-listings-frontend?src=seo&sid=1",
                      titleAttr := some "Frontend Developer",
                      innerText := "Frontend Developer" },
    postedDateText := some "Just now",
    companyText := some "Acme",
    locationText := some "Chennai",
    experienceText := some "2-3 Yrs" }

-- --- Helper lemmas ---

theorem toLower_of_isDigit {c : Char} (h : c.isDigit = true) : c.toLower = c := by
  simp [Char.isDigit] at h
  obtain ⟨h1, h2⟩ := h
  have h2' : c.toNat ≤ 57 := UInt32.toNat_le_of_le (by decide) h2
  unfold Char.toLower
  rw [if_neg]
  intro hc
  obtain ⟨hc1, hc2⟩ := hc
  unfold Char.toNat at h2' hc1
  omega

theorem jsToLower_digits_dash (l : List Char)
    (h : ∀ c ∈ l, c.isDigit = true ∨ c = '-') : jsToLower l = l := by
  induction l with
  | nil => rfl
  | cons c cs ih =>
    have hc : c.toLower = c := by
      rcases h c (by simp) with hd | hd
      · exact toLower_of_isDigit hd
      · subst hd; decide
    have ih' := ih (fun x hx => h x (by simp [hx]))
    simp only [jsToLower, List.map_cons, hc]
    simpa [jsToLower] using ih'

theorem spanDigits_append (da rest : List Char) (hda : ∀ c ∈ da, c.isDigit = true)
    (hrest : ∀ c, rest.head? = some c → c.isDigit = false) :
    spanDigits (da ++ rest) = (da, rest) := by
  induction da with
  | nil =>
    simp only [List.nil_append]
    cases rest with
    | nil => rfl
    | cons c cs =>
      have := hrest c rfl
      simp [spanDigits, this]
  | cons c cs ih =>
    have hc := hda c (by simp)
    have ih' := ih (fun x hx => hda x (by simp [hx]))
    simp [spanDigits, hc, ih']

theorem rangeMatchAt_exact (da db : List Char) (hane : da ≠ []) (hbne : db ≠ [])
    (hda : ∀ c ∈ da, c.isDigit = true) (hdb : ∀ c ∈ db, c.isDigit = true) :
    rangeMatchAt (da ++ '-' :: db) = some (da, db) := by
  have h1 : spanDigits (da ++ '-' :: db) = (da, '-' :: db) :=
    spanDigits_append da ('-' :: db) hda (by intro c hc; simp at hc; subst hc; decide)
  have h2 : spanDigits db = (db, []) := by
    have := spanDigits_append db [] hdb (by intro c hc; simp at hc)
    simpa using this
  unfold rangeMatchAt
  rw [h1]
  cases da with
  | nil => exact absurd rfl hane
  | cons a as =>
    simp only []
    rw [h2]
    cases db with
    | nil => exact absurd rfl hbne
    | cons b bs => rfl

theorem findRange_exact (da db : List Char) (hane : da ≠ []) (hbne : db ≠ [])
    (hda : ∀ c ∈ da, c.isDigit = true) (hdb : ∀ c ∈ db, c.isDigit = true) :
    findRange (da ++ '-' :: db) = some (da, db) := by
  cases da with
  | nil => exact absurd rfl hane
  | cons a as =>
    have h := rangeMatchAt_exact (a :: as) db (by simp) hbne hda hdb
    simp only [List.cons_append, findRange, List.append_eq]
    rw [List.cons_append] at h
    rw [h]

-- --- Claims about the Filter Engine predicates ---

/-- C7: `isRecent` is fail-closed: it is `false` on empty text, and for
non-empty text it is `true` exactly when one of the recognized
freshness markers (seconds/minutes/hours phrasing, "just now",
"today", "1 day") occurs as a substring of the lowercased input. -/
theorem isRecent_fail_closed (s : String) :
    isRecent "" = false
    ∧ (isRecent s = true ↔
        s ≠ "" ∧ ∃ m ∈ recentMarkers, jsIncludes (jsToLower s.data) m.data = true) := by
  refine ⟨by decide, ?_⟩
  by_cases h : s = ""
  · subst h
    decide
  · simp only [isRecent, if_neg h, recentMarkers]
    simp [h]

/-- C5: each category title validator is `true` exactly when the
lowercased title contains at least one valid keyword and no excluded
keyword; it is `false` on the empty title, and exclusion dominates
inclusion. -/
theorem keyword_gate_iff (valid excl : List String) (l : List Char) :
    (valid.any (fun k => jsIncludes l k.data) &&
      !(excl.any (fun k => jsIncludes l k.data))) = true ↔
      (∃ k ∈ valid, jsIncludes l k.data = true)
      ∧ ∀ k ∈ excl, jsIncludes l k.data = false := by
  rw [Bool.and_eq_true, Bool.not_eq_true', List.any_eq_true, List.any_eq_false]
  simp [Bool.not_eq_true]

theorem keyword_gate_excl (valid excl : List String) (l : List Char) (k : String)
    (hk : k ∈ excl) (hinc : jsIncludes l k.data = true) :
    (valid.any (fun x => jsIncludes l x.data) &&
      !(excl.any (fun x => jsIncludes l x.data))) = false := by
  have : excl.any (fun x => jsIncludes l x.data) = true := List.any_eq_true.mpr ⟨k, hk, hinc⟩
  rw [this]
  simp

theorem title_validators_spec (t : String) :
    (isValidDevTitle t = true ↔
      (∃ k ∈ devValidKeywords, jsIncludes (jsToLower t.data) k.data = true)
      ∧ ∀ k ∈ devExcludedKeywords, jsIncludes (jsToLower t.data) k.data = false)
    ∧ (isValidDesignTitle t = true ↔
      (∃ k ∈ designValidKeywords, jsIncludes (jsToLower t.data) k.data = true)
      ∧ ∀ k ∈ designExcludedKeywords, jsIncludes (jsToLower t.data) k.data = false)
    ∧ isValidDevTitle "" = false ∧ isValidDesignTitle "" = false
    ∧ (∀ k ∈ devExcludedKeywords, jsIncludes (jsToLower t.data) k.data = true →
        isValidDevTitle t = false)
    ∧ (∀ k ∈ designExcludedKeywords, jsIncludes (jsToLower t.data) k.data = true →
        isValidDesignTitle t = false) := by
  by_cases h : t = ""
  · subst h
    decide
  · have ed : isValidDevTitle t =
        (devValidKeywords.any (fun k => jsIncludes (jsToLower t.data) k.data) &&
          !(devExcludedKeywords.any (fun k => jsIncludes (jsToLower t.data) k.data))) := by
      simp only [isValidDevTitle, if_neg h]
    have eg : isValidDesignTitle t =
        (designValidKeywords.any (fun k => jsIncludes (jsToLower t.data) k.data) &&
          !(designExcludedKeywords.any (fun k => jsIncludes (jsToLower t.data) k.data))) := by
      simp only [isValidDesignTitle, if_neg h]
    refine ⟨?_, ?_, by decide, by decide, ?_, ?_⟩
    · rw [ed]; exact keyword_gate_iff _ _ _
    · rw [eg]; exact keyword_gate_iff _ _ _
    · intro k hk hinc; rw [ed]; exact keyword_gate_excl _ _ _ k hk hinc
    · intro k hk hinc; rw [eg]; exact keyword_gate_excl _ _ _ k hk hinc

/-- Witness for `title_validators_spec`: "UI Manager" matches the valid
design keyword "ui" and the excluded keyword "manager", and is
rejected. -/
theorem title_validators_spec_witness : isValidDesignTitle "UI Manager" = false :=
  (title_validators_spec "UI Manager").2.2.2.2.2 "manager" (by decide) (by decide)

/-- C6: `isValidLocation` is `false` whenever the location contains a
denied out-of-region marker (deny checked first, absolute), and with no
denied marker present it is `true` exactly when an allowed-region
marker occurs. -/
theorem isValidLocation_spec (loc : String) :
    ((∃ l ∈ excludedLocations, jsIncludes (jsToLower loc.data) l.data = true) →
        isValidLocation loc = false)
    ∧ ((∀ l ∈ excludedLocations, jsIncludes (jsToLower loc.data) l.data = false) →
        (isValidLocation loc = true ↔
          ∃ a ∈ LOCATIONS, jsIncludes (jsToLower loc.data) (jsToLower a.data) = true)) := by
  by_cases h : loc = ""
  · subst h
    constructor
    · intro hex
      decide
    · intro hall
      decide
  · constructor
    · intro hex
      have : excludedLocations.any (fun l => jsIncludes (jsToLower loc.data) l.data) = true := by
        rcases hex with ⟨l, hl, hinc⟩
        exact List.any_eq_true.mpr ⟨l, hl, hinc⟩
      simp [isValidLocation, h, this]
    · intro hall
      have : excludedLocations.any (fun l => jsIncludes (jsToLower loc.data) l.data) = false := by
        rw [List.any_eq_false]
        intro l hl
        simp [hall l hl]
      simp [isValidLocation, h, this, List.any_eq_true]

/-- Witness for `isValidLocation_spec`: "London, Chennai" contains the
denied marker "london" and is rejected despite the allowed marker
"chennai". -/
theorem isValidLocation_spec_witness : isValidLocation "London, Chennai" = false :=
  (isValidLocation_spec "London, Chennai").1 ⟨"london", by decide, by decide⟩

/-- C4: against the target range `[2,3]`, an experience string whose
first `a-b` numeric range parses to `(a, b)` passes exactly when
`a ≤ 3 ∧ b ≥ 2` (any-overlap, inclusive); for a pure `a-b` string of
decimal digit runs this is exactly the overlap condition; with no
range, only the fallback phrases `'2 yrs'` / `'3 yrs'` pass; and
`"1-2"` passes, `"4-5"` fails, `"2-3"` passes. -/
theorem naukriValidExp_spec :
    (∀ (s : String) (ds1 ds2 : List Char),
       findRange (jsToLower s.data) = some (ds1, ds2) →
       (naukriValidExp s = true ↔ parseDigits ds1 ≤ 3 ∧ 2 ≤ parseDigits ds2))
    ∧ (∀ da db : List Char, da ≠ [] → db ≠ [] →
       (∀ c ∈ da, c.isDigit = true) → (∀ c ∈ db, c.isDigit = true) →
       (naukriValidExp (String.mk (da ++ '-' :: db)) = true ↔
         parseDigits da ≤ 3 ∧ 2 ≤ parseDigits db))
    ∧ (∀ s : String, findRange (jsToLower s.data) = none →
       naukriValidExp s = (jsIncludes (jsToLower s.data) "2 yrs".data ||
                           jsIncludes (jsToLower s.data) "3 yrs".data))
    ∧ naukriValidExp "1-2" = true ∧ naukriValidExp "4-5" = false
    ∧ naukriValidExp "2-3" = true := by
  have unfoldExp : ∀ s : String, naukriValidExp s =
      (match findRange (jsToLower s.data) with
        | some (ds1, ds2) => decide (parseDigits ds1 ≤ 3) && decide (parseDigits ds2 ≥ 2)
        | none => jsIncludes (jsToLower s.data) "2 yrs".data ||
                  jsIncludes (jsToLower s.data) "3 yrs".data) := fun _ => rfl
  have part1 : ∀ (s : String) (ds1 ds2 : List Char),
      findRange (jsToLower s.data) = some (ds1, ds2) →
      (naukriValidExp s = true ↔ parseDigits ds1 ≤ 3 ∧ 2 ≤ parseDigits ds2) := by
    intro s ds1 ds2 hf
    rw [unfoldExp, hf]
    simp
  refine ⟨part1, ?_, ?_, by decide, by decide, by decide⟩
  · intro da db hane hbne hda hdb
    apply part1
    show findRange (jsToLower (da ++ '-' :: db)) = some (da, db)
    rw [jsToLower_digits_dash]
    · exact findRange_exact da db hane hbne hda hdb
    · intro c hc
      rcases List.mem_append.mp hc with hc | hc
      · exact Or.inl (hda c hc)
      · rcases List.mem_cons.mp hc with hc | hc
        · exact Or.inr hc
        · exact Or.inl (hdb c hc)
  · intro s hf
    rw [unfoldExp, hf]

/-- Witness for `naukriValidExp_spec`: the single-digit range string
"1-2" overlaps the target `[2,3]` and passes. -/
theorem naukriValidExp_spec_witness :
    naukriValidExp (String.mk (['1'] ++ '-' :: ['2'])) = true :=
  (naukriValidExp_spec.2.1 ['1'] ['2'] (by decide) (by decide) (by decide)
    (by decide)).mpr (by decide)

-- --- Pipeline lemmas ---

theorem contains_mem {l : List String} {a : String} : l.contains a = true ↔ a ∈ l :=
  List.elem_iff

theorem processJob_urls_mono (v : String → Bool) (now cat : String) (p : Platform)
    (st : ScrapeState) (job : ScrapedJob) :
    ∀ u ∈ st.existingUrls, u ∈ (processJob v now cat p st job).existingUrls := by
  intro u hu
  unfold processJob
  split
  · exact hu
  · split
    · exact List.mem_cons_of_mem _ hu
    · exact hu

theorem processJobs_urls_mono (v : String → Bool) (now cat : String)
    (l : List (Platform × ScrapedJob)) (st : ScrapeState) :
    ∀ u ∈ st.existingUrls, u ∈ (processJobs v now cat st l).existingUrls := by
  induction l generalizing st with
  | nil => intro u hu; exact hu
  | cons pj rest ih =>
    intro u hu
    exact ih _ u (processJob_urls_mono v now cat pj.1 st pj.2 u hu)

theorem processJob_jobs_mono (v : String → Bool) (now cat : String) (p : Platform)
    (st : ScrapeState) (job : ScrapedJob) :
    ∀ j ∈ st.existingJobs, j ∈ (processJob v now cat p st job).existingJobs := by
  intro j hj
  unfold processJob
  split
  · exact hj
  · split
    · exact List.mem_append_left _ hj
    · exact hj

theorem processJobs_jobs_mono (v : String → Bool) (now cat : String)
    (l : List (Platform × ScrapedJob)) (st : ScrapeState) :
    ∀ j ∈ st.existingJobs, j ∈ (processJobs v now cat st l).existingJobs := by
  induction l generalizing st with
  | nil => intro j hj; exact hj
  | cons pj rest ih =>
    intro j hj
    exact ih _ j (processJob_jobs_mono v now cat pj.1 st pj.2 j hj)

/-- Every URL in the final Ledger was in the starting Ledger or belongs
to a job recorded in the final `existingJobs` list. -/
theorem processJobs_urls_covered (v : String → Bool) (now cat : String)
    (l : List (Platform × ScrapedJob)) (st : ScrapeState) :
    ∀ u ∈ (processJobs v now cat st l).existingUrls,
      u ∈ st.existingUrls ∨
      u ∈ (processJobs v now cat st l).existingJobs.map (fun j => j.detailUrl) := by
  induction l generalizing st with
  | nil => intro u hu; exact Or.inl hu
  | cons pj rest ih =>
    intro u hu
    have step : processJobs v now cat st (pj :: rest) =
        processJobs v now cat (processJob v now cat pj.1 st pj.2) rest := rfl
    rw [step] at hu ⊢
    rcases ih _ u hu with h | h
    · -- u came from the state after the head step
      revert h
      unfold processJob
      split
      · exact Or.inl
      · split
        · intro h
          rcases List.mem_cons.mp h with h | h
          · subst h
            refine Or.inr ?_
            have hmem : stamp pj.2 now cat ∈
                (processJobs v now cat
                  { existingUrls := pj.2.detailUrl :: st.existingUrls,
                    categoryJobs := st.categoryJobs ++ [stamp pj.2 now cat],
                    existingJobs := st.existingJobs ++ [stamp pj.2 now cat] }
                  rest).existingJobs := by
              apply processJobs_jobs_mono
              simp
            exact List.mem_map.mpr ⟨stamp pj.2 now cat, hmem, rfl⟩
          · exact Or.inl h
        · exact Or.inl
    · exact Or.inr h

/-- Every raw record in the processed list either fails its platform's
pure filter gate or ends the run with its URL in the Ledger. -/
theorem processJobs_record_covered (v : String → Bool) (now cat : String)
    (l : List (Platform × ScrapedJob)) (st : ScrapeState) :
    ∀ pj ∈ l, platformFilters pj.1 v pj.2 = false ∨
      pj.2.detailUrl ∈ (processJobs v now cat st l).existingUrls := by
  induction l generalizing st with
  | nil => intro pj hpj; exact absurd hpj (List.not_mem_nil pj)
  | cons hd rest ih =>
    intro pj hpj
    have step : processJobs v now cat st (hd :: rest) =
        processJobs v now cat (processJob v now cat hd.1 st hd.2) rest := rfl
    rcases List.mem_cons.mp hpj with h | h
    · subst h
      by_cases hc : st.existingUrls.contains pj.2.detailUrl = true
      · refine Or.inr ?_
        rw [step]
        exact processJobs_urls_mono v now cat rest _ _
          (processJob_urls_mono v now cat pj.1 st pj.2 _ (contains_mem.mp hc))
      · by_cases hf : platformFilters pj.1 v pj.2 = true
        · refine Or.inr ?_
          rw [step]
          apply processJobs_urls_mono
          unfold processJob
          rw [if_neg hc, if_pos hf]
          exact List.mem_cons_self _ _
        · exact Or.inl (Bool.eq_false_iff.mpr hf)
    · exact ih _ pj h

/-- If every record in the list fails its filter gate or already has
its URL in the Ledger, nothing changes: the fold is the identity. -/
theorem processJobs_no_accept (v : String → Bool) (now cat : String)
    (l : List (Platform × ScrapedJob)) (st : ScrapeState)
    (h : ∀ pj ∈ l, platformFilters pj.1 v pj.2 = false ∨
      pj.2.detailUrl ∈ st.existingUrls) :
    processJobs v now cat st l = st := by
  induction l with
  | nil => rfl
  | cons hd rest ih =>
    have hstep : processJob v now cat hd.1 st hd.2 = st := by
      rcases h hd (List.mem_cons_self _ _) with hf | hm
      · unfold processJob
        split
        · rfl
        · rw [if_neg (by simp [hf])]
      · unfold processJob
        rw [if_pos (contains_mem.mpr hm)]
    show processJobs v now cat (processJob v now cat hd.1 st hd.2) rest = st
    rw [hstep]
    exact ih (fun pj hpj => h pj (List.mem_cons_of_mem _ hpj))

/-- C1 (amended): the Naukri accept path evaluates all four Filter
Engine predicates (title, location, recency, experience) and accepts
only when all pass, rejecting on any failure; the LinkedIn accept path
evaluates only the title and location predicates — recency and
experience are not consulted there. -/
theorem filter_gate_paths (v : String → Bool) (now cat : String)
    (st : ScrapeState) (job : ScrapedJob) :
    (processJob v now cat .naukri st job ≠ st →
       v job.title = true ∧ isValidLocation job.location = true ∧
       isRecent job.postedDate = true ∧ naukriValidExp job.experience = true)
    ∧ ((v job.title = false ∨ isValidLocation job.location = false ∨
        isRecent job.postedDate = false ∨ naukriValidExp job.experience = false) →
       processJob v now cat .naukri st job = st)
    ∧ (job.detailUrl ∉ st.existingUrls →
       ((processJob v now cat .linkedin st job ≠ st) ↔
         (v job.title = true ∧ isValidLocation job.location = true))) := by
  refine ⟨?_, ?_, ?_⟩
  · intro hne
    by_cases hc : st.existingUrls.contains job.detailUrl = true
    · exact absurd (by unfold processJob; rw [if_pos hc]) hne
    · by_cases hf : naukriFilters v job = true
      · have h := hf
        simp only [naukriFilters, Bool.and_eq_true] at h
        exact ⟨h.1.1.1, h.1.1.2, h.1.2, h.2⟩
      · refine absurd ?_ hne
        unfold processJob
        rw [if_neg hc]
        simp only [platformFilters]
        rw [if_neg hf]
  · intro hdisj
    have hf : naukriFilters v job = false := by
      simp only [naukriFilters]
      rcases hdisj with h | h | h | h <;> simp [h]
    unfold processJob
    split
    · rfl
    · rw [if_neg (by simp [platformFilters, hf])]
  · intro hmem
    have hc : ¬ st.existingUrls.contains job.detailUrl = true :=
      fun h => hmem (contains_mem.mp h)
    by_cases hf : linkedInFilters v job = true
    · constructor
      · intro _
        simpa [linkedInFilters, Bool.and_eq_true] using hf
      · intro _
        unfold processJob
        rw [if_neg hc]
        simp only [platformFilters]
        rw [if_pos hf]
        intro heq
        have h := congrArg ScrapeState.categoryJobs heq
        simpa using congrArg List.length h
    · have heq : processJob v now cat .linkedin st job = st := by
        unfold processJob
        rw [if_neg hc]
        simp only [platformFilters]
        rw [if_neg hf]
      constructor
      · intro hne
        exact absurd heq hne
      · intro hcond
        exact absurd (by simpa [linkedInFilters, Bool.and_eq_true] using hcond) hf

/-- Witness for `filter_gate_paths`: a Naukri record with a stale
posted date is rejected (state unchanged). -/
theorem filter_gate_paths_witness :
    processJob isValidDevTitle "t0" "Frontend" Platform.naukri
      ⟨[], [], []⟩
      { title := "Frontend Developer", detailUrl := "https://www.naukri.com/job-9",
        company := "Acme", location := "Chennai", experience := "2-4 Yrs",
        postedDate := "2 weeks ago" } = ⟨[], [], []⟩ :=
  (filter_gate_paths isValidDevTitle "t0" "Frontend" ⟨[], [], []⟩
      { title := "Frontend Developer", detailUrl := "https://www.naukri.com/job-9",
        company := "Acme", location := "Chennai", experience := "2-4 Yrs",
        postedDate := "2 weeks ago" }).2.1 (Or.inr (Or.inr (Or.inl (by decide))))

/-- Counterexample to C1 as stated: on the LinkedIn path a record whose
posted date fails the recency predicate (and whose experience text
passes no experience check) is nevertheless stamped and appended to the
category batch. -/
theorem linkedin_path_skips_recency :
    isRecent staleLinkedInJob.postedDate = false ∧
    naukriValidExp staleLinkedInJob.experience = false ∧
    (processJob isValidDevTitle "2025-01-01T00:00:00.000Z" "Frontend" Platform.linkedin
        ⟨[], [], []⟩ staleLinkedInJob).categoryJobs =
      [stamp staleLinkedInJob "2025-01-01T00:00:00.000Z" "Frontend"] := by
  decide

/-- The Ledger/batch invariant: batch URLs are in the Ledger and are
pairwise distinct, preserved by the fold. -/
theorem processJobs_batch_inv (v : String → Bool) (now cat : String)
    (l : List (Platform × ScrapedJob)) (st : ScrapeState)
    (h1 : ∀ j ∈ st.categoryJobs, j.detailUrl ∈ st.existingUrls)
    (h2 : (st.categoryJobs.map (fun j => j.detailUrl)).Nodup) :
    (∀ j ∈ (processJobs v now cat st l).categoryJobs,
        j.detailUrl ∈ (processJobs v now cat st l).existingUrls)
    ∧ ((processJobs v now cat st l).categoryJobs.map (fun j => j.detailUrl)).Nodup := by
  induction l generalizing st with
  | nil => exact ⟨h1, h2⟩
  | cons hd rest ih =>
    show (∀ j ∈ (processJobs v now cat (processJob v now cat hd.1 st hd.2) rest).categoryJobs,
        j.detailUrl ∈ (processJobs v now cat (processJob v now cat hd.1 st hd.2) rest).existingUrls) ∧ _
    apply ih
    · -- batch URLs still in Ledger after one step
      unfold processJob
      split
      · exact h1
      · split
        · intro j hj
          rcases List.mem_append.mp hj with hj | hj
          · exact List.mem_cons_of_mem _ (h1 j hj)
          · simp at hj
            subst hj
            exact List.mem_cons_self _ _
        · exact h1
    · -- batch URLs still Nodup after one step
      unfold processJob
      split
      · exact h2
      · rename_i hc
        split
        · rw [List.map_append, List.nodup_append]
          refine ⟨h2, by simp, ?_⟩
          intro u hu hmem
          simp only [stamp, List.map_cons, List.map_nil, List.mem_singleton] at hmem
          subst hmem
          rcases List.mem_map.mp hu with ⟨j, hj, hju⟩
          exact hc (contains_mem.mpr (hju ▸ h1 j hj))
        · exact h2

-- --- Claims about the Dedup Ledger ---

/-- C2: the Dedup Ledger is insertion-only across any segment of a run;
a record whose URL is already in the Ledger is skipped; on acceptance
the URL is added immediately; and in a run started with an empty batch
each URL appears in the accepted batch at most once. -/
theorem dedup_ledger_spec (v : String → Bool) (now cat : String) (p : Platform)
    (st : ScrapeState) (job : ScrapedJob) (l : List (Platform × ScrapedJob))
    (seed : List String) (cache : List Job) :
    (∀ u ∈ st.existingUrls, u ∈ (processJobs v now cat st l).existingUrls)
    ∧ (job.detailUrl ∈ st.existingUrls → processJob v now cat p st job = st)
    ∧ (job.detailUrl ∉ st.existingUrls → platformFilters p v job = true →
        (processJob v now cat p st job).existingUrls = job.detailUrl :: st.existingUrls ∧
        (processJob v now cat p st job).categoryJobs = st.categoryJobs ++ [stamp job now cat])
    ∧ (∀ u : String, ((processJobs v now cat ⟨seed, [], cache⟩ l).categoryJobs.map
          (fun j => j.detailUrl)).count u ≤ 1) := by
  refine ⟨processJobs_urls_mono v now cat l st, ?_, ?_, ?_⟩
  · intro hmem
    unfold processJob
    rw [if_pos (contains_mem.mpr hmem)]
  · intro hmem hf
    have hc : ¬ st.existingUrls.contains job.detailUrl = true :=
      fun h => hmem (contains_mem.mp h)
    unfold processJob
    rw [if_neg hc, if_pos hf]
    exact ⟨rfl, rfl⟩
  · intro u
    have hinv := processJobs_batch_inv v now cat l ⟨seed, [], cache⟩
      (by intro j hj; exact absurd hj (List.not_mem_nil j)) (by simp)
    exact List.nodup_iff_count_le_one.mp hinv.2 u

/-- Witness for `dedup_ledger_spec`: with the URL already seeded, the
record is skipped and the state is unchanged. -/
theorem dedup_ledger_spec_witness :
    processJob isValidDevTitle "t0" "Frontend" Platform.naukri
      ⟨["https://www.naukri.com/job-1"], [], []⟩ goodNaukriJob =
      ⟨["https://www.naukri.com/job-1"], [], []⟩ :=
  (dedup_ledger_spec isValidDevTitle "t0" "Frontend" Platform.naukri
      ⟨["https://www.naukri.com/job-1"], [], []⟩ goodNaukriJob [] [] []).2.1
    (by decide)

-- --- Claim about cross-run dedup idempotence ---

/-- C3: with a shared (append-only) remote store and the same scraped
records, every URL accepted by the first run is in the second run's
Ledger seed (local cache union remote query), and the second run
accepts zero new records. -/
theorem second_run_no_new_records (v : String → Bool) (now1 cat1 now2 cat2 : String)
    (cache1 : List Job) (remote1 remote2 : List String)
    (scraped : List (Platform × ScrapedJob))
    (hremote : ∀ u ∈ remote1, u ∈ remote2) :
    (∀ j ∈ (runScraper v now1 cat1 cache1 remote1 scraped).categoryJobs,
        j.detailUrl ∈
          seedUrls (runScraper v now1 cat1 cache1 remote1 scraped).existingJobs remote2)
    ∧ (runScraper v now2 cat2
        (runScraper v now1 cat1 cache1 remote1 scraped).existingJobs
        remote2 scraped).categoryJobs = [] := by
  have hsub : ∀ u ∈ (processJobs v now1 cat1
      ⟨seedUrls cache1 remote1, [], cache1⟩ scraped).existingUrls,
      u ∈ seedUrls (processJobs v now1 cat1
        ⟨seedUrls cache1 remote1, [], cache1⟩ scraped).existingJobs remote2 := by
    intro u hu
    rcases processJobs_urls_covered v now1 cat1 scraped
      ⟨seedUrls cache1 remote1, [], cache1⟩ u hu with h | h
    · rcases List.mem_append.mp h with h | h
      · rcases List.mem_map.mp h with ⟨j, hj, hju⟩
        apply List.mem_append_left
        exact List.mem_map.mpr
          ⟨j, processJobs_jobs_mono v now1 cat1 scraped _ j hj, hju⟩
      · exact List.mem_append_right _ (hremote u h)
    · exact List.mem_append_left _ h
  have hbatch := processJobs_batch_inv v now1 cat1 scraped
    ⟨seedUrls cache1 remote1, [], cache1⟩
    (by intro j hj; exact absurd hj (List.not_mem_nil j)) (by simp)
  refine ⟨?_, ?_⟩
  · intro j hj
    exact hsub _ (hbatch.1 j hj)
  · have hno := processJobs_no_accept v now2 cat2 scraped
      ⟨seedUrls (processJobs v now1 cat1
          ⟨seedUrls cache1 remote1, [], cache1⟩ scraped).existingJobs remote2, [],
        (processJobs v now1 cat1
          ⟨seedUrls cache1 remote1, [], cache1⟩ scraped).existingJobs⟩
      (by
        intro pj hpj
        rcases processJobs_record_covered v now1 cat1 scraped
          ⟨seedUrls cache1 remote1, [], cache1⟩ pj hpj with h | h
        · exact Or.inl h
        · exact Or.inr (hsub _ h))
    exact congrArg ScrapeState.categoryJobs hno

/-- Witness for `second_run_no_new_records`: a record accepted on the
first run is not accepted again on the second. -/
theorem second_run_no_new_records_witness :
    (runScraper isValidDevTitle "t2" "Frontend"
      (runScraper isValidDevTitle "t1" "Frontend" [] []
        [(Platform.naukri, goodNaukriJob)]).existingJobs []
      [(Platform.naukri, goodNaukriJob)]).categoryJobs = [] ∧
    (runScraper isValidDevTitle "t1" "Frontend" [] []
      [(Platform.naukri, goodNaukriJob)]).categoryJobs.length = 1 :=
  ⟨(second_run_no_new_records isValidDevTitle "t1" "Frontend" "t2" "Frontend"
      [] [] [] [(Platform.naukri, goodNaukriJob)] (fun u hu => hu)).2,
   by decide⟩

-- --- Claims about Persistence Sync ---

/-- C8: `appendToSheet` is a no-op on an empty batch or a missing/empty
spreadsheet id; otherwise it appends exactly `jobs.map sheetRow` — one
row per record, in one fixed column order — and the identity column
(detailUrl, zero-based index 4, column E) is exactly the column
`fetchExistingUrls` queries. -/
theorem appendToSheet_spec (jobs : List Job) (sid : Option String) (j : Job) :
    (jobs = [] → appendToSheet jobs sid = none)
    ∧ appendToSheet jobs none = none
    ∧ appendToSheet jobs (some "") = none
    ∧ (∀ s : String, jobs ≠ [] → s ≠ "" →
        appendToSheet jobs (some s) = some (jobs.map sheetRow))
    ∧ (∀ (s : String) (rows : List (List String)),
        appendToSheet jobs (some s) = some rows →
        rows = jobs.map sheetRow ∧ rows.length = jobs.length)
    ∧ (sheetRow j)[columnIndex fetchColumn]? = some j.detailUrl
    ∧ columnIndex fetchColumn = 4 := by
  refine ⟨?_, ?_, ?_, ?_, ?_, rfl, by decide⟩
  · intro hj
    subst hj
    rfl
  · unfold appendToSheet
    split <;> rfl
  · unfold appendToSheet
    split <;> rfl
  · intro s hne hs
    unfold appendToSheet
    rw [if_neg (by simpa [List.isEmpty_iff] using hne)]
    show (if s = "" then none else some (jobs.map sheetRow)) = some (jobs.map sheetRow)
    rw [if_neg hs]
  · intro s rows h
    by_cases hj : jobs.isEmpty = true
    · rw [show appendToSheet jobs (some s) = none by unfold appendToSheet; rw [if_pos hj]] at h
      exact Option.noConfusion h
    · by_cases hs : s = ""
      · subst hs
        rw [show appendToSheet jobs (some "") = none by
          unfold appendToSheet; rw [if_neg hj]; rfl] at h
        exact Option.noConfusion h
      · rw [show appendToSheet jobs (some s) = some (jobs.map sheetRow) by
          unfold appendToSheet
          rw [if_neg hj]
          show (if s = "" then none else some (jobs.map sheetRow)) = _
          rw [if_neg hs]] at h
        cases h
        exact ⟨rfl, by simp⟩

/-- Witness for `appendToSheet_spec`: a one-record batch appends exactly
its one fixed-order row. -/
theorem appendToSheet_spec_witness :
    appendToSheet [stamp goodNaukriJob "t0" "Frontend"] (some "sheet-id") =
      some [sheetRow (stamp goodNaukriJob "t0" "Frontend")] :=
  (appendToSheet_spec [stamp goodNaukriJob "t0" "Frontend"] (some "sheet-id")
      (stamp goodNaukriJob "t0" "Frontend")).2.2.2.1 "sheet-id"
    (by decide) (by decide)

/-- C10: `fetchExistingUrls` seeds the Ledger only with non-empty cells
that start with "http" (headers and junk cells are dropped), and any
query/auth error yields the empty seed rather than an abort. -/
theorem fetchExistingUrls_spec (sid : Option String) (resp : SheetsResponse) :
    (∀ u ∈ fetchExistingUrls sid resp, u ≠ "" ∧ jsStartsWith u "http" = true)
    ∧ fetchExistingUrls sid SheetsResponse.err = []
    ∧ fetchExistingUrls (some "sheet-id")
        (SheetsResponse.ok (some [["Detail URL"], ["https://a.example/x"], [""]])) =
      ["https://a.example/x"] := by
  refine ⟨?_, ?_, by decide⟩
  · intro u hu
    rcases sid with _ | s
    · exact absurd hu (List.not_mem_nil u)
    · simp only [fetchExistingUrls] at hu
      by_cases hs : s = ""
      · rw [if_pos hs] at hu
        exact absurd hu (List.not_mem_nil u)
      · rw [if_neg hs] at hu
        rcases resp with _ | values
        · exact absurd hu (List.not_mem_nil u)
        · rcases values with _ | rows
          · exact absurd hu (List.not_mem_nil u)
          · have hu' : u ∈ (if rows.isEmpty = true then ([] : List String)
                else rows.flatten.filter (fun url => url ≠ "" && jsStartsWith url "http")) := hu
            by_cases hr : rows.isEmpty = true
            · rw [if_pos hr] at hu'
              exact absurd hu' (List.not_mem_nil u)
            · rw [if_neg hr] at hu'
              have hp := List.of_mem_filter hu'
              simpa [Bool.and_eq_true] using hp
  · rcases sid with _ | s
    · rfl
    · simp only [fetchExistingUrls]
      by_cases hs : s = ""
      · rw [if_pos hs]
      · rw [if_neg hs]

/-- Witness for `fetchExistingUrls_spec`: the URL kept from the mixed
column is non-empty and http-prefixed. -/
theorem fetchExistingUrls_spec_witness :
    ("https://a.example/x" : String) ≠ "" ∧
      jsStartsWith "https://a.example/x" "http" = true :=
  (fetchExistingUrls_spec (some "sheet-id")
      (SheetsResponse.ok (some [["Detail URL"], ["https://a.example/x"], [""]]))).1
    "https://a.example/x" (by decide)

-- --- Claims about the Record Normalizer ---

/-- C9 (amended): the LinkedIn extraction canonicalizes `detailUrl` by
stripping the query string and defaults missing fields to "N/A"; the
Naukri extraction also defaults missing fields to "N/A" but takes
`detailUrl` verbatim from the raw href, without stripping the query
string. -/
theorem normalizer_spec (cardL : LinkedInCard) (cardN : NaukriCard) (job : ScrapedJob) :
    (linkedInExtract cardL = some job →
       (∃ h, cardL.linkHref = some h ∧ job.detailUrl = stripQuery h)
       ∧ (cardL.companyText = none → job.company = "N/A")
       ∧ (cardL.locationText = none → job.location = "N/A")
       ∧ (cardL.timeText = none → job.postedDate = "N/A")
       ∧ job.experience = "N/A")
    ∧ (naukriExtract cardN = some job →
       (∃ el, cardN.titleEl = some el ∧ el.href = some job.detailUrl)
       ∧ (cardN.postedDateText = none → job.postedDate = "N/A")
       ∧ (cardN.companyText = none → job.company = "N/A")
       ∧ (cardN.locationText = none → job.location = "N/A")
       ∧ (cardN.experienceText = none → job.experience = "N/A")) := by
  constructor
  · intro hext
    rcases cardL with ⟨t, l, c, lo, ti⟩
    rcases l with _ | href
    · exact Option.noConfusion hext
    · simp only [linkedInExtract] at hext
      split at hext
      · cases hext
        refine ⟨⟨href, rfl, rfl⟩, ?_, ?_, ?_, rfl⟩
        · intro hc
          subst hc
          rfl
        · intro hlo
          subst hlo
          rfl
        · intro hti
          subst hti
          rfl
      · exact Option.noConfusion hext
  · intro hext
    rcases cardN with ⟨tel, pd, c, lo, ex⟩
    rcases tel with _ | el
    · exact Option.noConfusion hext
    · rcases el with ⟨href, tattr, itext⟩
      rcases href with _ | url
      · exact Option.noConfusion hext
      · simp only [naukriExtract] at hext
        split at hext
        · exact Option.noConfusion hext
        · cases hext
          refine ⟨⟨⟨some url, tattr, itext⟩, rfl, rfl⟩, ?_, ?_, ?_, ?_⟩ <;>
            (intro hx; subst hx; rfl)

/-- Witness for `normalizer_spec`: the Naukri extraction of a card with
a query-string href reports that raw href as the record identity. -/
theorem normalizer_spec_witness :
    ∃ el, naukriCardWithQuery.titleEl = some el ∧
      el.href = some "https://www.naukri.com/job-listings-frontend?src=seo&sid=1" :=
  ((normalizer_spec ⟨none, none, none, none, none⟩ naukriCardWithQuery
      { title := "Frontend Developer",
        detailUrl := "https://www.naukri.com/job-listings-frontend?src=seo&sid=1",
        company := "Acme", location := "Chennai", experience := "2-3 Yrs",
        postedDate := "Just now" }).2 (by decide)).1

/-- Counterexample to C9 as stated: the record produced by the Naukri
extraction keeps the query string on `detailUrl`; stripping would have
produced a different (canonical) URL. -/
theorem naukri_extract_keeps_query :
    (naukriExtract naukriCardWithQuery).map (fun j => j.detailUrl) =
      some "https://www.naukri.com/job-listings-frontend?src=seo&sid=1"
    ∧ stripQuery "https://www.naukri.com/job-listings-frontend?src=seo&sid=1" =
      "https://www.naukri.com/job-listings-frontend"
    ∧ ("https://www.naukri.com/job-listings-frontend?src=seo&sid=1" : String) ≠
      "https://www.naukri.com/job-listings-frontend" := by
  decide
